import Mathlib

/-!
Shallow embedding of the traffic-aggregation core of the `iftop_rs` repository
(src/constants.rs, src/app.rs, src/network.rs, and the older revision in
src/main.rs), together with theorems checking the specification's claims.

Modelling conventions:
* Rust `u64` byte counters are modelled as `ℕ` (the claims are about the
  incremental bookkeeping of byte counts, where overflow is not at issue; the
  one `u64` subtraction in the code is shown to never underflow).
* Rust `f64` rate values are modelled as `ℚ`, computing the exact value of the
  arithmetic expressions in the source.  The one place a NaN could arise
  (`total_sum as f64 / duration_secs` with a zero divisor) is additionally
  modelled by the partial division `f64Div`, which returns `none` exactly when
  the divisor is zero, i.e. when the f64 result would not be a finite
  non-negative number.
* `Local::now()` / `Instant` timestamps are modelled by an abstract `ℕ` clock
  value passed in as a parameter `now`.
* `HashMap` is modelled as an association list in iteration order; `VecDeque`
  as a `List` with the front at the head.
-/

/-- Model of `std::net::Ipv4Addr`: four octets. -/
structure Ipv4Addr where
  o0 : ℕ
  o1 : ℕ
  o2 : ℕ
  o3 : ℕ
deriving DecidableEq, Repr

/-- Numeric value of an IPv4 address (`u32::from(ip)` in the pnet library). -/
def Ipv4Addr.toNat (ip : Ipv4Addr) : ℕ :=
  ip.o0 * 2 ^ 24 + ip.o1 * 2 ^ 16 + ip.o2 * 2 ^ 8 + ip.o3

/-- Model of `pnet::ipnetwork::Ipv4Network`: a base address and a mask length. -/
structure Ipv4Network where
  ip : Ipv4Addr
  maskBits : ℕ
deriving DecidableEq, Repr

/-- CIDR membership test of the external pnet library: the high `maskBits` bits
of the address agree with those of the network's base address. -/
def Ipv4Network.contains (n : Ipv4Network) (a : Ipv4Addr) : Bool :=
  n.ip.toNat / 2 ^ (32 - n.maskBits) == a.toNat / 2 ^ (32 - n.maskBits)

/-- `src/constants.rs` line 1: `pub const TICK_RATE_MS: u64 = 500;`
(the same value is declared again in the older revision `src/main.rs` line 40). -/
def TICK_RATE_MS : ℕ := 500

/-- `src/constants.rs` line 2: `pub const HISTORY_WINDOW_SECS: u64 = 60;`
(duplicated in `src/main.rs` line 41). -/
def HISTORY_WINDOW_SECS : ℕ := 60

/-- `src/constants.rs` line 3:
`const MAX_SAMPLES: usize = (HISTORY_WINDOW_SECS * 1000 / TICK_RATE_MS) as usize;`
(duplicated in `src/main.rs` line 42); evaluates to 120. -/
def MAX_SAMPLES : ℕ := HISTORY_WINDOW_SECS * 1000 / TICK_RATE_MS

/-- The tick interval in seconds, `TICK_RATE_MS as f64 / 1000.0`, as an exact
rational (1/2). -/
def tickSecs : ℚ := (TICK_RATE_MS : ℚ) / 1000

/-- Model of f64 division restricted to the values this program produces: the
division is a genuine finite quotient when the divisor is nonzero, and `none`
marks the divisor-zero case, where f64 would yield NaN (for `0.0/0.0`) or an
infinity — the values on which `partial_cmp` can fail to be well-ordered. -/
def f64Div (a b : ℚ) : Option ℚ :=
  if b = 0 then none else some (a / b)

/-- The windowed-average computation shared verbatim by `IpHistory::update`
(`src/app.rs` lines 51-56) and `IpMetrics::update` (`src/main.rs` lines 82-83):
`duration_secs = len * (TICK_RATE_MS / 1000)`, returning 0 when the duration is
zero and `total / duration_secs` otherwise. -/
def windowAvg (len total : ℕ) : ℚ :=
  let duration_secs : ℚ := (len : ℚ) * ((TICK_RATE_MS : ℚ) / 1000)
  if duration_secs = 0 then 0 else (total : ℚ) / duration_secs

/-- `src/app.rs` lines 18-23, `pub struct IpHistory` (one sliding-window rate
tracker): sample queue (front = oldest), running sum, peak rate and its time. -/
structure IpHistory where
  samples : List ℕ
  total_sum : ℕ
  peak_rate : ℚ
  peak_time : ℕ
deriving DecidableEq, Repr

/-- `IpHistory::new` (`src/app.rs` lines 26-33); `now` models `Local::now()`. -/
def IpHistory.new (now : ℕ) : IpHistory :=
  { samples := [], total_sum := 0, peak_rate := 0, peak_time := now }

/-- `IpHistory::update` (`src/app.rs` lines 35-57), with the queue capacity as
an explicit parameter `cap` (the source uses the constant `MAX_SAMPLES`; the
spec's Scenario B instantiates the same algorithm at capacity 3).  Returns the
post-update tracker and the returned average rate. -/
def IpHistory.updateCap (cap : ℕ) (h : IpHistory) (now : ℕ) (bytes : ℕ) :
    IpHistory × ℚ :=
  let instant_rate : ℚ := (bytes : ℚ) * (1000 / (TICK_RATE_MS : ℚ))
  let peak :=
    if h.peak_rate < instant_rate then (instant_rate, now)
    else (h.peak_rate, h.peak_time)
  let samples₁ := h.samples ++ [bytes]
  let total₁ := h.total_sum + bytes
  let pushed :=
    if cap < samples₁.length then
      match samples₁ with
      | [] => (samples₁, total₁)
      | removed :: rest => (rest, total₁ - removed)
    else (samples₁, total₁)
  ({ samples := pushed.1, total_sum := pushed.2,
     peak_rate := peak.1, peak_time := peak.2 },
   windowAvg pushed.1.length pushed.2)

/-- `IpHistory::update` at the source's capacity `MAX_SAMPLES`. -/
def IpHistory.update (h : IpHistory) (now : ℕ) (bytes : ℕ) : IpHistory × ℚ :=
  IpHistory.updateCap MAX_SAMPLES h now bytes

/-- Iterate `IpHistory.update` over a list of `(now, bytes)` inputs. -/
def IpHistory.runUpdates (h : IpHistory) (l : List (ℕ × ℕ)) : IpHistory :=
  l.foldl (fun s nb => (s.update nb.1 nb.2).1) h

/-- Association-list lookup (model of `HashMap::get` / `contains_key`). -/
def alFind {β : Type} (m : List (Ipv4Addr × β)) (k : Ipv4Addr) : Option β :=
  match m with
  | [] => none
  | (k', v) :: rest => if k' = k then some v else alFind rest k

/-- Association-list upsert (model of `HashMap` `entry(..).or_insert(..)` plus
assignment): replaces the first binding of `k`, or appends one. -/
def alInsert {β : Type} (m : List (Ipv4Addr × β)) (k : Ipv4Addr) (v : β) :
    List (Ipv4Addr × β) :=
  match m with
  | [] => [(k, v)]
  | (k', v') :: rest =>
      if k' = k then (k, v) :: rest else (k', v') :: alInsert rest k v

/-- Association-list deletion (model of `HashMap::remove`). -/
def alRemove {β : Type} (m : List (Ipv4Addr × β)) (k : Ipv4Addr) :
    List (Ipv4Addr × β) :=
  m.filter (fun p => !(p.1 == k))

/-- Keys of an association list, in iteration order. -/
def alKeys {β : Type} (m : List (Ipv4Addr × β)) : List Ipv4Addr :=
  m.map Prod.fst

/-- `src/app.rs` lines 11-15, `pub struct SharedStats`: the shared accumulator
drained once per tick. -/
structure SharedStats where
  traffic_delta : List (Ipv4Addr × ℕ)
  rx_delta : ℕ
  tx_delta : ℕ
deriving DecidableEq, Repr

/-- `is_rfc1918_private` (`src/network.rs` lines 29-34). -/
def is_rfc1918_private (ip : Ipv4Addr) : Bool :=
  (ip.o0 == 192 && ip.o1 == 168) ||
  (ip.o0 == 10) ||
  (ip.o0 == 172 && decide (16 ≤ ip.o1) && decide (ip.o1 ≤ 31))

/-- `should_track_ip` (`src/network.rs` lines 43-49). -/
def should_track_ip (ip : Ipv4Addr) (filter_cidr : Option Ipv4Network) : Bool :=
  match filter_cidr with
  | some network => network.contains ip
  | none => is_rfc1918_private ip

/-- The per-packet body of the capture thread (`src/network.rs` lines 69-88):
classify `src` against the local address to bump the tx or rx counter, then add
`len` to the per-tick delta of each of `src` and `dst` that is tracked. -/
def SharedStats.record (s : SharedStats) (local_ip : Ipv4Addr)
    (filter_cidr : Option Ipv4Network) (src dst : Ipv4Addr) (len : ℕ) :
    SharedStats :=
  let s₁ :=
    if src = local_ip then { s with tx_delta := s.tx_delta + len }
    else { s with rx_delta := s.rx_delta + len }
  let s₂ :=
    if should_track_ip src filter_cidr then
      { s₁ with traffic_delta :=
          alInsert s₁.traffic_delta src ((alFind s₁.traffic_delta src).getD 0 + len) }
    else s₁
  if should_track_ip dst filter_cidr then
    { s₂ with traffic_delta :=
        alInsert s₂.traffic_delta dst ((alFind s₂.traffic_delta dst).getD 0 + len) }
  else s₂

/-- `src/app.rs` lines 61-74, `pub struct App` (aggregator state). -/
structure App where
  rx_history : List ℚ
  tx_history : List ℚ
  total_rx_bytes : ℕ
  total_tx_bytes : ℕ
  peak_rx_record : ℚ × ℕ
  peak_tx_record : ℚ × ℕ
  ip_histories : List (Ipv4Addr × IpHistory)
  top_talkers : List (Ipv4Addr × ℚ × ℚ × ℕ)
  last_tick : ℕ
deriving DecidableEq, Repr

/-- `App::new` (`src/app.rs` lines 77-90). -/
def App.new (now : ℕ) : App :=
  { rx_history := List.replicate MAX_SAMPLES 0
    tx_history := List.replicate MAX_SAMPLES 0
    total_rx_bytes := 0
    total_tx_bytes := 0
    peak_rx_record := (0, now)
    peak_tx_record := (0, now)
    ip_histories := []
    top_talkers := []
    last_tick := now }

/-- One iteration of the per-endpoint loop in `App::on_tick` (`src/app.rs`
lines 123-134): fetch this tick's delta (0 if absent), get or create the
tracker, update it, then either keep it and push a snapshot entry or remove it
from the map. -/
def visitIp (delta : List (Ipv4Addr × ℕ)) (now : ℕ)
    (st : List (Ipv4Addr × IpHistory) × List (Ipv4Addr × ℚ × ℚ × ℕ))
    (ip : Ipv4Addr) :
    List (Ipv4Addr × IpHistory) × List (Ipv4Addr × ℚ × ℚ × ℕ) :=
  let bytes_in := (alFind delta ip).getD 0
  let history := (alFind st.1 ip).getD (IpHistory.new now)
  let u := history.update now bytes_in
  if 0 < u.1.total_sum ∨ 0 < u.1.peak_rate then
    (alInsert st.1 ip u.1, st.2 ++ [(ip, u.2, u.1.peak_rate, u.1.peak_time)])
  else
    (alRemove st.1 ip, st.2)

/-- The descending-by-average comparison used by the snapshot sort
(`src/app.rs` line 136: `|a, b| b.1.partial_cmp(&a.1).unwrap()`). -/
def snapLe (a b : Ipv4Addr × ℚ × ℚ × ℕ) : Bool :=
  decide (b.2.1 ≤ a.2.1)

/-- `App::on_tick` (`src/app.rs` lines 92-142); `now` models the tick's wall
clock.  Returns the new aggregator state and the drained accumulator. -/
def App.on_tick (app : App) (stats : SharedStats) (now : ℕ) :
    App × SharedStats :=
  let rx_history := app.rx_history.drop 1 ++ [(stats.rx_delta : ℚ)]
  let tx_history := app.tx_history.drop 1 ++ [(stats.tx_delta : ℚ)]
  let total_rx_bytes := app.total_rx_bytes + stats.rx_delta
  let total_tx_bytes := app.total_tx_bytes + stats.tx_delta
  let current_rx_rate : ℚ := (stats.rx_delta : ℚ) * (1000 / (TICK_RATE_MS : ℚ))
  let current_tx_rate : ℚ := (stats.tx_delta : ℚ) * (1000 / (TICK_RATE_MS : ℚ))
  let peak_rx_record :=
    if app.peak_rx_record.1 < current_rx_rate then (current_rx_rate, now)
    else app.peak_rx_record
  let peak_tx_record :=
    if app.peak_tx_record.1 < current_tx_rate then (current_tx_rate, now)
    else app.peak_tx_record
  let all_ips :=
    alKeys app.ip_histories ++
      (alKeys stats.traffic_delta).filter
        (fun k => (alFind app.ip_histories k).isNone)
  let visited := all_ips.foldl (visitIp stats.traffic_delta now)
    (app.ip_histories, [])
  let current_snapshot := visited.2.mergeSort snapLe
  ({ rx_history := rx_history
     tx_history := tx_history
     total_rx_bytes := total_rx_bytes
     total_tx_bytes := total_tx_bytes
     peak_rx_record := peak_rx_record
     peak_tx_record := peak_tx_record
     ip_histories := visited.1
     top_talkers := current_snapshot
     last_tick := app.last_tick },
   { traffic_delta := [], rx_delta := 0, tx_delta := 0 })

/-- `src/main.rs` lines 55-62, `struct IpMetrics` (the older revision's
per-endpoint tracker; its `peak_time` is a formatted string, modelled by the
clock value that was formatted). -/
structure IpMetrics where
  samples : List ℕ
  total_sum : ℕ
  peak_bps : ℚ
  peak_time : ℕ
deriving DecidableEq, Repr

/-- `IpMetrics::new` (`src/main.rs` lines 65-72). -/
def IpMetrics.new : IpMetrics :=
  { samples := [], total_sum := 0, peak_bps := 0, peak_time := 0 }

/-- `IpMetrics::update` (`src/main.rs` lines 74-92): same push/evict/average
computation as `IpHistory::update`, but the peak is taken over the returned
windowed average, after the push, rather than over the instantaneous rate
before it. -/
def IpMetrics.update (m : IpMetrics) (now : ℕ) (bytes : ℕ) : IpMetrics × ℚ :=
  let samples₁ := m.samples ++ [bytes]
  let total₁ := m.total_sum + bytes
  let pushed :=
    if MAX_SAMPLES < samples₁.length then
      match samples₁ with
      | [] => (samples₁, total₁)
      | removed :: rest => (rest, total₁ - removed)
    else (samples₁, total₁)
  let current_bps : ℚ := windowAvg pushed.1.length pushed.2
  let peak :=
    if m.peak_bps < current_bps then (current_bps, now)
    else (m.peak_bps, m.peak_time)
  ({ samples := pushed.1, total_sum := pushed.2,
     peak_bps := peak.1, peak_time := peak.2 }, current_bps)

/-- The sequence of averages returned by iterating `IpHistory::update`. -/
def IpHistory.runAvgs (h : IpHistory) : List (ℕ × ℕ) → List ℚ
  | [] => []
  | nb :: rest =>
      let u := h.update nb.1 nb.2
      u.2 :: u.1.runAvgs rest

/-- The sequence of averages returned by iterating `IpMetrics::update`. -/
def IpMetrics.runAvgs (m : IpMetrics) : List (ℕ × ℕ) → List ℚ
  | [] => []
  | nb :: rest =>
      let u := m.update nb.1 nb.2
      u.2 :: u.1.runAvgs rest


/-! ### Association-list lemmas -/

theorem alFind_alInsert_self {β : Type} (m : List (Ipv4Addr × β)) (k : Ipv4Addr)
    (v : β) : alFind (alInsert m k v) k = some v := by
  induction m with
  | nil => simp [alInsert, alFind]
  | cons p rest ih =>
      obtain ⟨k', v'⟩ := p
      by_cases hk : k' = k
      · simp [alInsert, hk, alFind]
      · simp [alInsert, hk, alFind, ih]

theorem alFind_alInsert_ne {β : Type} (m : List (Ipv4Addr × β)) (k a : Ipv4Addr)
    (v : β) (hne : a ≠ k) : alFind (alInsert m k v) a = alFind m a := by
  have hka : ¬ k = a := fun h => hne h.symm
  induction m with
  | nil => simp [alInsert, alFind, hka]
  | cons p rest ih =>
      obtain ⟨k', v'⟩ := p
      by_cases hk : k' = k
      · subst hk
        simp [alInsert, alFind, hka]
      · by_cases ha : k' = a
        · simp [alInsert, hk, alFind, ha, hne]
        · simp [alInsert, hk, alFind, ha, ih]

theorem alFind_alRemove_self {β : Type} (m : List (Ipv4Addr × β)) (k : Ipv4Addr) :
    alFind (alRemove m k) k = none := by
  induction m with
  | nil => simp [alRemove, alFind]
  | cons p rest ih =>
      obtain ⟨k', v'⟩ := p
      by_cases hk : k' = k
      · simpa [alRemove, List.filter_cons, hk] using ih
      · simpa [alRemove, List.filter_cons, alFind, hk] using ih

theorem alFind_alRemove_ne {β : Type} (m : List (Ipv4Addr × β)) (k a : Ipv4Addr)
    (hne : a ≠ k) : alFind (alRemove m k) a = alFind m a := by
  induction m with
  | nil => simp [alRemove]
  | cons p rest ih =>
      obtain ⟨k', v'⟩ := p
      by_cases hk : k' = k
      · subst hk
        have hka : ¬ k' = a := fun h => hne h.symm
        simpa [alRemove, List.filter_cons, alFind, hka] using ih
      · by_cases ha : k' = a
        · simp [alRemove, List.filter_cons, alFind, hk, ha, hne]
        · simpa [alRemove, List.filter_cons, alFind, hk, ha] using ih

theorem alFind_eq_none_iff {β : Type} (m : List (Ipv4Addr × β)) (k : Ipv4Addr) :
    alFind m k = none ↔ k ∉ alKeys m := by
  induction m with
  | nil => simp [alFind, alKeys]
  | cons p rest ih =>
      obtain ⟨k', v'⟩ := p
      by_cases hk : k' = k
      · simp [alFind, alKeys, hk]
      · have hk' : ¬ k = k' := fun h => hk h.symm
        simp [alFind, alKeys, hk, hk', ih]

theorem mem_keys_of_alFind {β : Type} {m : List (Ipv4Addr × β)} {k : Ipv4Addr}
    {v : β} (h : alFind m k = some v) : k ∈ alKeys m := by
  by_contra hmem
  rw [← alFind_eq_none_iff] at hmem
  rw [h] at hmem
  exact Option.noConfusion hmem

theorem mem_alRemove {β : Type} (m : List (Ipv4Addr × β)) (k : Ipv4Addr)
    (p : Ipv4Addr × β) : p ∈ alRemove m k ↔ p ∈ m ∧ ¬ p.1 = k := by
  simp [alRemove, List.mem_filter]

theorem alInsert_cons_self {β : Type} (rest : List (Ipv4Addr × β))
    (k : Ipv4Addr) (v' v : β) : alInsert ((k, v') :: rest) k v = (k, v) :: rest := by
  simp [alInsert]

theorem alInsert_cons_ne {β : Type} (rest : List (Ipv4Addr × β))
    (k' k : Ipv4Addr) (v' v : β) (hk : ¬ k' = k) :
    alInsert ((k', v') :: rest) k v = (k', v') :: alInsert rest k v := by
  simp [alInsert, hk]

theorem mem_alInsert {β : Type} (m : List (Ipv4Addr × β)) (k : Ipv4Addr) (v : β)
    (p : Ipv4Addr × β) (hnd : (alKeys m).Nodup) :
    p ∈ alInsert m k v ↔ p = (k, v) ∨ (p ∈ m ∧ ¬ p.1 = k) := by
  induction m with
  | nil => simp [alInsert]
  | cons q rest ih =>
      obtain ⟨k', v'⟩ := q
      simp only [alKeys, List.map_cons, List.nodup_cons] at hnd
      by_cases hk : k' = k
      · subst hk
        rw [alInsert_cons_self]
        simp only [List.mem_cons]
        constructor
        · intro hmem
          rcases hmem with h | hp
          · exact Or.inl h
          · refine Or.inr ⟨Or.inr hp, ?_⟩
            intro h1
            exact hnd.1 (h1 ▸ List.mem_map_of_mem Prod.fst hp)
        · intro hmem
          rcases hmem with h | ⟨hp, hne⟩
          · exact Or.inl h
          · rcases hp with h | hp
            · exact absurd (by rw [h]) hne
            · exact Or.inr hp
      · rw [alInsert_cons_ne rest k' k v' v hk]
        simp only [List.mem_cons, ih hnd.2]
        constructor
        · intro hmem
          rcases hmem with h | h | ⟨hp, hne⟩
          · refine Or.inr ⟨Or.inl h, ?_⟩
            intro h1
            rw [h] at h1
            exact hk h1
          · exact Or.inl h
          · exact Or.inr ⟨Or.inr hp, hne⟩
        · intro hmem
          rcases hmem with h | ⟨hp, hne⟩
          · exact Or.inr (Or.inl h)
          · rcases hp with h | hp
            · exact Or.inl h
            · exact Or.inr (Or.inr ⟨hp, hne⟩)

theorem alKeys_alInsert {β : Type} (m : List (Ipv4Addr × β)) (k : Ipv4Addr)
    (v : β) :
    alKeys (alInsert m k v) =
      if k ∈ alKeys m then alKeys m else alKeys m ++ [k] := by
  induction m with
  | nil => simp [alInsert, alKeys]
  | cons p rest ih =>
      obtain ⟨k', v'⟩ := p
      by_cases hk : k' = k
      · simp [alInsert, alKeys, hk]
      · have hk' : ¬ k = k' := fun h => hk h.symm
        by_cases hmem : k ∈ alKeys rest
        · simp only [alKeys] at hmem ih ⊢
          simp [alInsert, hk, hk', hmem, ih]
        · simp only [alKeys] at hmem ih ⊢
          simp [alInsert, hk, hk', hmem, ih]

theorem alKeys_alInsert_nodup {β : Type} (m : List (Ipv4Addr × β))
    (k : Ipv4Addr) (v : β) (hnd : (alKeys m).Nodup) :
    (alKeys (alInsert m k v)).Nodup := by
  rw [alKeys_alInsert]
  by_cases hmem : k ∈ alKeys m
  · simpa [hmem] using hnd
  · simp only [hmem, if_false]
    simp [List.nodup_append, hnd, hmem]

theorem alKeys_alRemove_nodup {β : Type} (m : List (Ipv4Addr × β))
    (k : Ipv4Addr) (hnd : (alKeys m).Nodup) : (alKeys (alRemove m k)).Nodup := by
  induction m with
  | nil => simp [alRemove, alKeys]
  | cons p rest ih =>
      obtain ⟨k', v'⟩ := p
      simp only [alKeys, List.map_cons, List.nodup_cons] at hnd
      by_cases hk : k' = k
      · simpa [alRemove, List.filter_cons, hk] using ih hnd.2
      · have hsub : ∀ x, x ∈ alKeys (alRemove rest k) → x ∈ alKeys rest := by
          intro x hx
          simp only [alKeys, List.mem_map] at hx ⊢
          obtain ⟨q, hq, rfl⟩ := hx
          exact ⟨q, (mem_alRemove rest k q).mp hq |>.1, rfl⟩
        have : (alKeys (alRemove ((k', v') :: rest) k)) =
            k' :: alKeys (alRemove rest k) := by
          simp [alRemove, List.filter_cons, hk, alKeys]
        rw [this]
        exact List.nodup_cons.mpr
          ⟨fun hx => hnd.1 (by simpa [alKeys] using hsub k' hx), ih hnd.2⟩

/-! ### Window-tracker lemmas -/

theorem duration_ne_zero (n : ℕ) (hn : 0 < n) :
    ((n : ℚ) * ((TICK_RATE_MS : ℚ) / 1000)) ≠ 0 := by
  have h1 : (n : ℚ) ≠ 0 := Nat.cast_ne_zero.mpr hn.ne'
  have h2 : ((TICK_RATE_MS : ℚ) / 1000) ≠ 0 := by norm_num [TICK_RATE_MS]
  exact mul_ne_zero h1 h2

theorem windowAvg_nonneg (len total : ℕ) : 0 ≤ windowAvg len total := by
  simp only [windowAvg]
  split
  · exact le_rfl
  · positivity

theorem windowAvg_of_pos (len total : ℕ) (hlen : 0 < len) :
    windowAvg len total =
      (total : ℚ) / ((len : ℚ) * ((TICK_RATE_MS : ℚ) / 1000)) := by
  simp only [windowAvg]
  rw [if_neg (duration_ne_zero len hlen)]

theorem f64Div_windowAvg (len total : ℕ) (hlen : 0 < len) :
    f64Div (total : ℚ) ((len : ℚ) * ((TICK_RATE_MS : ℚ) / 1000)) =
      some (windowAvg len total) := by
  rw [windowAvg_of_pos len total hlen]
  simp only [f64Div]
  rw [if_neg (duration_ne_zero len hlen)]

theorem updateCap_avg_def (cap : ℕ) (h : IpHistory) (now bytes : ℕ) :
    (IpHistory.updateCap cap h now bytes).2 =
      windowAvg (IpHistory.updateCap cap h now bytes).1.samples.length
        (IpHistory.updateCap cap h now bytes).1.total_sum := rfl

theorem updateCap_inv (cap : ℕ) (h : IpHistory) (now bytes : ℕ)
    (hlen : h.samples.length ≤ cap) (hsum : h.total_sum = h.samples.sum) :
    (IpHistory.updateCap cap h now bytes).1.samples.length ≤ cap ∧
    (IpHistory.updateCap cap h now bytes).1.total_sum =
      (IpHistory.updateCap cap h now bytes).1.samples.sum := by
  obtain ⟨samples, total, peak, ptime⟩ := h
  simp only at hlen hsum
  subst hsum
  simp only [IpHistory.updateCap]
  cases samples with
  | nil =>
      simp only [List.nil_append]
      constructor <;> (simp; split <;> simp_all <;> omega)
  | cons a t =>
      simp only [List.cons_append]
      constructor <;>
        (simp only [List.length_cons, List.length_append, List.length_nil,
           List.sum_cons, List.sum_append, List.sum_nil] at hlen ⊢;
         split <;>
         simp_all [List.length_append, List.sum_append] <;> omega)

theorem updateCap_length_pos (cap : ℕ) (h : IpHistory) (now bytes : ℕ)
    (hcap : 0 < cap) :
    0 < (IpHistory.updateCap cap h now bytes).1.samples.length := by
  obtain ⟨samples, total, peak, ptime⟩ := h
  simp only [IpHistory.updateCap]
  cases samples with
  | nil =>
      simp only [List.nil_append]
      simp
      split <;> simp_all
  | cons a t =>
      simp only [List.cons_append]
      simp
      split <;> simp_all

theorem update_length_pos (h : IpHistory) (now bytes : ℕ) :
    0 < (h.update now bytes).1.samples.length :=
  updateCap_length_pos MAX_SAMPLES h now bytes (by norm_num [MAX_SAMPLES,
    HISTORY_WINDOW_SECS, TICK_RATE_MS])

theorem updateCap_avg_eq (cap : ℕ) (h : IpHistory) (now bytes : ℕ)
    (hcap : 0 < cap) :
    (IpHistory.updateCap cap h now bytes).2 =
      ((IpHistory.updateCap cap h now bytes).1.total_sum : ℚ) /
        (((IpHistory.updateCap cap h now bytes).1.samples.length : ℚ) *
          ((TICK_RATE_MS : ℚ) / 1000)) := by
  rw [updateCap_avg_def]
  exact windowAvg_of_pos _ _ (updateCap_length_pos cap h now bytes hcap)

theorem updateCap_avg_nonneg (cap : ℕ) (h : IpHistory) (now bytes : ℕ) :
    0 ≤ (IpHistory.updateCap cap h now bytes).2 := by
  rw [updateCap_avg_def]
  exact windowAvg_nonneg _ _

theorem updateCap_peak_lt (cap : ℕ) (h : IpHistory) (now bytes : ℕ)
    (hlt : h.peak_rate < (bytes : ℚ) * (1000 / (TICK_RATE_MS : ℚ))) :
    (IpHistory.updateCap cap h now bytes).1.peak_rate =
        (bytes : ℚ) * (1000 / (TICK_RATE_MS : ℚ)) ∧
      (IpHistory.updateCap cap h now bytes).1.peak_time = now := by
  obtain ⟨samples, total, peak, ptime⟩ := h
  simp only at hlt
  simp [IpHistory.updateCap, hlt]

theorem updateCap_peak_ge (cap : ℕ) (h : IpHistory) (now bytes : ℕ)
    (hge : ¬ h.peak_rate < (bytes : ℚ) * (1000 / (TICK_RATE_MS : ℚ))) :
    (IpHistory.updateCap cap h now bytes).1.peak_rate = h.peak_rate ∧
      (IpHistory.updateCap cap h now bytes).1.peak_time = h.peak_time := by
  obtain ⟨samples, total, peak, ptime⟩ := h
  simp only at hge
  simp [IpHistory.updateCap, hge]

theorem updateCap_peak_mono (cap : ℕ) (h : IpHistory) (now bytes : ℕ) :
    h.peak_rate ≤ (IpHistory.updateCap cap h now bytes).1.peak_rate := by
  by_cases hlt : h.peak_rate < (bytes : ℚ) * (1000 / (TICK_RATE_MS : ℚ))
  · rw [(updateCap_peak_lt cap h now bytes hlt).1]
    exact le_of_lt hlt
  · rw [(updateCap_peak_ge cap h now bytes hlt).1]

theorem runUpdates_peak_mono (h : IpHistory) (l : List (ℕ × ℕ)) :
    h.peak_rate ≤ (h.runUpdates l).peak_rate := by
  induction l generalizing h with
  | nil => simp [IpHistory.runUpdates]
  | cons nb rest ih =>
      calc h.peak_rate ≤ (h.update nb.1 nb.2).1.peak_rate :=
            updateCap_peak_mono MAX_SAMPLES h nb.1 nb.2
        _ ≤ ((h.update nb.1 nb.2).1.runUpdates rest).peak_rate :=
            ih (h.update nb.1 nb.2).1
        _ = (h.runUpdates (nb :: rest)).peak_rate := by
            simp [IpHistory.runUpdates]

/-! ### Equivalence of the two tracker revisions -/

theorem metrics_update_eq_history (m : IpMetrics) (h : IpHistory)
    (hs : m.samples = h.samples) (ht : m.total_sum = h.total_sum)
    (now bytes : ℕ) :
    (m.update now bytes).2 = (h.update now bytes).2 ∧
    (m.update now bytes).1.samples = (h.update now bytes).1.samples ∧
    (m.update now bytes).1.total_sum = (h.update now bytes).1.total_sum := by
  obtain ⟨ms, mt, mp, mpt⟩ := m
  obtain ⟨hsamples, htotal, hp, hpt⟩ := h
  simp only at hs ht
  subst hs
  subst ht
  exact ⟨rfl, rfl, rfl⟩

theorem runAvgs_eq (l : List (ℕ × ℕ)) : ∀ (m : IpMetrics) (h : IpHistory),
    m.samples = h.samples → m.total_sum = h.total_sum →
    m.runAvgs l = h.runAvgs l := by
  induction l with
  | nil => intro m h _ _; rfl
  | cons nb rest ih =>
      intro m h hs ht
      obtain ⟨h1, h2, h3⟩ := metrics_update_eq_history m h hs ht nb.1 nb.2
      simp only [IpMetrics.runAvgs, IpHistory.runAvgs]
      rw [h1, ih _ _ h2 h3]

/-! ### Aggregator (`on_tick`) lemmas -/

theorem on_tick_ip_histories (app : App) (stats : SharedStats) (now : ℕ) :
    (App.on_tick app stats now).1.ip_histories =
      ((alKeys app.ip_histories ++
          (alKeys stats.traffic_delta).filter
            (fun k => (alFind app.ip_histories k).isNone)).foldl
        (visitIp stats.traffic_delta now) (app.ip_histories, [])).1 := rfl

theorem on_tick_top_talkers (app : App) (stats : SharedStats) (now : ℕ) :
    (App.on_tick app stats now).1.top_talkers =
      (((alKeys app.ip_histories ++
          (alKeys stats.traffic_delta).filter
            (fun k => (alFind app.ip_histories k).isNone)).foldl
        (visitIp stats.traffic_delta now) (app.ip_histories, [])).2).mergeSort
        snapLe := rfl

theorem on_tick_peak_rx (app : App) (stats : SharedStats) (now : ℕ) :
    (App.on_tick app stats now).1.peak_rx_record =
      (if app.peak_rx_record.1 <
          (stats.rx_delta : ℚ) * (1000 / (TICK_RATE_MS : ℚ))
       then ((stats.rx_delta : ℚ) * (1000 / (TICK_RATE_MS : ℚ)), now)
       else app.peak_rx_record) := rfl

theorem on_tick_peak_tx (app : App) (stats : SharedStats) (now : ℕ) :
    (App.on_tick app stats now).1.peak_tx_record =
      (if app.peak_tx_record.1 <
          (stats.tx_delta : ℚ) * (1000 / (TICK_RATE_MS : ℚ))
       then ((stats.tx_delta : ℚ) * (1000 / (TICK_RATE_MS : ℚ)), now)
       else app.peak_tx_record) := rfl

theorem visitIp_fst_find_ne (delta : List (Ipv4Addr × ℕ)) (now : ℕ)
    (st : List (Ipv4Addr × IpHistory) × List (Ipv4Addr × ℚ × ℚ × ℕ))
    (ip k : Ipv4Addr) (hne : k ≠ ip) :
    alFind (visitIp delta now st ip).1 k = alFind st.1 k := by
  simp only [visitIp]
  split
  · exact alFind_alInsert_ne _ _ _ _ hne
  · exact alFind_alRemove_ne _ _ _ hne

theorem foldl_visit_find_not_mem (delta : List (Ipv4Addr × ℕ)) (now : ℕ)
    (l : List Ipv4Addr) (ip : Ipv4Addr) (hip : ip ∉ l) :
    ∀ st, alFind (l.foldl (visitIp delta now) st).1 ip = alFind st.1 ip := by
  induction l with
  | nil => intro st; rfl
  | cons a rest ih =>
      intro st
      simp only [List.foldl_cons]
      have hne : ip ≠ a := fun e => hip (e ▸ List.mem_cons_self a rest)
      rw [ih (fun hm => hip (List.mem_cons_of_mem a hm)),
        visitIp_fst_find_ne delta now st a ip hne]

theorem visitIp_fst_nodup (delta : List (Ipv4Addr × ℕ)) (now : ℕ)
    (st : List (Ipv4Addr × IpHistory) × List (Ipv4Addr × ℚ × ℚ × ℕ))
    (ip : Ipv4Addr) (hnd : (alKeys st.1).Nodup) :
    (alKeys (visitIp delta now st ip).1).Nodup := by
  simp only [visitIp]
  split
  · exact alKeys_alInsert_nodup _ _ _ hnd
  · exact alKeys_alRemove_nodup _ _ hnd

theorem foldl_visit_kept (delta : List (Ipv4Addr × ℕ)) (now : ℕ)
    (l : List Ipv4Addr) :
    ∀ st : List (Ipv4Addr × IpHistory) × List (Ipv4Addr × ℚ × ℚ × ℕ),
    (alKeys st.1).Nodup →
    (∀ p ∈ st.1, (0 < p.2.total_sum ∨ 0 < p.2.peak_rate) ∨ p.1 ∈ l) →
    ∀ p ∈ (l.foldl (visitIp delta now) st).1,
      0 < p.2.total_sum ∨ 0 < p.2.peak_rate := by
  induction l with
  | nil =>
      intro st _ hinv p hp
      rcases hinv p hp with h | h
      · exact h
      · simp at h
  | cons ip rest ih =>
      intro st hnd hinv
      simp only [List.foldl_cons]
      apply ih
      · exact visitIp_fst_nodup delta now st ip hnd
      · intro p hp
        simp only [visitIp] at hp
        split at hp
        · rename_i hc
          simp only at hp
          rw [mem_alInsert _ _ _ _ hnd] at hp
          rcases hp with rfl | ⟨hpm, hpne⟩
          · exact Or.inl hc
          · rcases hinv p hpm with h | h
            · exact Or.inl h
            · rcases List.mem_cons.mp h with h1 | h1
              · exact absurd h1 hpne
              · exact Or.inr h1
        · simp only at hp
          rcases (mem_alRemove _ _ _).mp hp with ⟨hpm, hpne⟩
          rcases hinv p hpm with h | h
          · exact Or.inl h
          · rcases List.mem_cons.mp h with h1 | h1
            · exact absurd h1 hpne
            · exact Or.inr h1

theorem foldl_visit_find_char (delta : List (Ipv4Addr × ℕ)) (now : ℕ)
    (l1 l2 : List Ipv4Addr) (ip : Ipv4Addr)
    (st : List (Ipv4Addr × IpHistory) × List (Ipv4Addr × ℚ × ℚ × ℕ))
    (hip1 : ip ∉ l1) (hip2 : ip ∉ l2) (h0 : IpHistory)
    (hfind : alFind st.1 ip = some h0) :
    alFind (((l1 ++ ip :: l2).foldl (visitIp delta now) st)).1 ip =
      (if 0 < (h0.update now ((alFind delta ip).getD 0)).1.total_sum ∨
          0 < (h0.update now ((alFind delta ip).getD 0)).1.peak_rate
       then some (h0.update now ((alFind delta ip).getD 0)).1
       else none) := by
  rw [List.foldl_append, List.foldl_cons,
    foldl_visit_find_not_mem delta now l2 ip hip2]
  have hmid : alFind ((l1.foldl (visitIp delta now) st)).1 ip = some h0 := by
    rw [foldl_visit_find_not_mem delta now l1 ip hip1 st, hfind]
  simp only [visitIp, hmid, Option.getD_some]
  split
  · simp only
    rw [alFind_alInsert_self]
  · simp only
    rw [alFind_alRemove_self]

theorem foldl_visit_snap_nonneg (delta : List (Ipv4Addr × ℕ)) (now : ℕ)
    (l : List Ipv4Addr) :
    ∀ st : List (Ipv4Addr × IpHistory) × List (Ipv4Addr × ℚ × ℚ × ℕ),
    (∀ e ∈ st.2, (0 : ℚ) ≤ e.2.1) →
    ∀ e ∈ (l.foldl (visitIp delta now) st).2, (0 : ℚ) ≤ e.2.1 := by
  induction l with
  | nil => intro st h e he; exact h e he
  | cons ip rest ih =>
      intro st h
      simp only [List.foldl_cons]
      apply ih
      intro e he
      simp only [visitIp] at he
      split at he
      · simp only at he
        rcases List.mem_append.mp he with h1 | h2
        · exact h e h1
        · rcases List.mem_singleton.mp h2 with rfl
          exact updateCap_avg_nonneg MAX_SAMPLES _ now _
      · exact h e he

theorem on_tick_find_char (app : App) (stats : SharedStats) (now : ℕ)
    (ip : Ipv4Addr) (h0 : IpHistory)
    (hnd1 : (alKeys app.ip_histories).Nodup)
    (hnd2 : (alKeys stats.traffic_delta).Nodup)
    (hfind : alFind app.ip_histories ip = some h0) :
    alFind (App.on_tick app stats now).1.ip_histories ip =
      (if 0 < (h0.update now ((alFind stats.traffic_delta ip).getD 0)).1.total_sum ∨
          0 < (h0.update now ((alFind stats.traffic_delta ip).getD 0)).1.peak_rate
       then some (h0.update now ((alFind stats.traffic_delta ip).getD 0)).1
       else none) := by
  rw [on_tick_ip_histories]
  have hndall : (alKeys app.ip_histories ++
      (alKeys stats.traffic_delta).filter
        (fun k => (alFind app.ip_histories k).isNone)).Nodup := by
    rw [List.nodup_append]
    refine ⟨hnd1, hnd2.filter _, ?_⟩
    intro a ha hafilter
    have hnone := (List.mem_filter.mp hafilter).2
    rw [Option.isNone_iff_eq_none, alFind_eq_none_iff] at hnone
    exact hnone ha
  have hmem : ip ∈ alKeys app.ip_histories ++
      (alKeys stats.traffic_delta).filter
        (fun k => (alFind app.ip_histories k).isNone) :=
    List.mem_append_left _ (mem_keys_of_alFind hfind)
  obtain ⟨l1, l2, hsplit⟩ := List.append_of_mem hmem
  rw [hsplit] at hndall ⊢
  rw [List.nodup_append] at hndall
  obtain ⟨hnl1, hncons, hdisj⟩ := hndall
  have hip2 : ip ∉ l2 := (List.nodup_cons.mp hncons).1
  have hip1 : ip ∉ l1 := fun h => hdisj h (List.mem_cons_self ip l2)
  exact foldl_visit_find_char stats.traffic_delta now l1 l2 ip
    (app.ip_histories, []) hip1 hip2 h0 hfind

/-! ### Capture-thread (`record`) lemmas -/
theorem alFind_bump (m : List (Ipv4Addr × ℕ)) (k : Ipv4Addr) (len : ℕ)
    (a : Ipv4Addr) :
    (alFind (alInsert m k ((alFind m k).getD 0 + len)) a).getD 0 =
      (alFind m a).getD 0 + (if a = k then len else 0) := by
  by_cases h : a = k
  · subst h
    rw [alFind_alInsert_self]
    simp
  · rw [alFind_alInsert_ne _ _ _ _ h]
    simp [h]

theorem record_spec (s : SharedStats) (local_ip : Ipv4Addr)
    (filter_cidr : Option Ipv4Network) (src dst : Ipv4Addr) (len : ℕ) :
    ((src = local_ip →
        (s.record local_ip filter_cidr src dst len).tx_delta = s.tx_delta + len ∧
        (s.record local_ip filter_cidr src dst len).rx_delta = s.rx_delta) ∧
     (¬ src = local_ip →
        (s.record local_ip filter_cidr src dst len).rx_delta = s.rx_delta + len ∧
        (s.record local_ip filter_cidr src dst len).tx_delta = s.tx_delta)) ∧
    (∀ a : Ipv4Addr,
      (alFind (s.record local_ip filter_cidr src dst len).traffic_delta a).getD 0 =
        (alFind s.traffic_delta a).getD 0 +
          (if should_track_ip src filter_cidr = true ∧ a = src then len else 0) +
          (if should_track_ip dst filter_cidr = true ∧ a = dst then len else 0)) := by
  refine ⟨⟨?_, ?_⟩, ?_⟩
  · intro hl
    simp only [SharedStats.record, if_pos hl]
    constructor <;> (split <;> split <;> rfl)
  · intro hl
    simp only [SharedStats.record, if_neg hl]
    constructor <;> (split <;> split <;> rfl)
  · intro a
    have h1 : (if src = local_ip then { s with tx_delta := s.tx_delta + len }
        else { s with rx_delta := s.rx_delta + len }).traffic_delta =
        s.traffic_delta := by split <;> rfl
    simp only [SharedStats.record, h1]
    by_cases hst : should_track_ip src filter_cidr = true <;>
      by_cases hdt : should_track_ip dst filter_cidr = true
    · rw [if_pos hst, if_pos hdt]
      simp only [h1]
      rw [alFind_bump, alFind_bump]
      simp [hst, hdt]
    · rw [if_pos hst, if_neg hdt]
      simp only [h1]
      rw [alFind_bump]
      simp [hst, hdt]
    · rw [if_neg hst, if_pos hdt]
      simp only [h1]
      rw [alFind_bump]
      simp [hst, hdt]
    · rw [if_neg hst, if_neg hdt]
      simp only [h1]
      simp [hst, hdt]

/-! ### Claim theorems -/
theorem runUpdates_inv (l : List (ℕ × ℕ)) :
    ∀ h : IpHistory, h.samples.length ≤ MAX_SAMPLES →
      h.total_sum = h.samples.sum →
      (h.runUpdates l).samples.length ≤ MAX_SAMPLES ∧
      (h.runUpdates l).total_sum = (h.runUpdates l).samples.sum := by
  induction l with
  | nil => intro h h1 h2; exact ⟨h1, h2⟩
  | cons nb rest ih =>
      intro h h1 h2
      have hstep := updateCap_inv MAX_SAMPLES h nb.1 nb.2 h1 h2
      simpa [IpHistory.runUpdates] using
        ih (h.update nb.1 nb.2).1 hstep.1 hstep.2

/-- The claims' concrete states: an endpoint address, an idle tracker that
has a nonzero recorded peak but an all-zero sample window, the aggregator
state holding it, and an empty accumulator. -/
def ipW : Ipv4Addr := ⟨10, 0, 0, 7⟩

def idleHist : IpHistory :=
  { samples := List.replicate 120 0, total_sum := 0, peak_rate := 500,
    peak_time := 3 }

def idleApp : App := { App.new 0 with ip_histories := [(ipW, idleHist)] }

def freshApp : App := { App.new 0 with ip_histories := [(ipW, IpHistory.new 0)] }

def emptyStats : SharedStats := { traffic_delta := [], rx_delta := 0, tx_delta := 0 }

/-- Scenario B of the spec: a fresh tracker with capacity 3 fed the byte
samples 300, 300, 300, 0. -/
def scenarioB : IpHistory × ℚ :=
  let u1 := IpHistory.updateCap 3 (IpHistory.new 0) 1 300
  let u2 := IpHistory.updateCap 3 u1.1 2 300
  let u3 := IpHistory.updateCap 3 u2.1 3 300
  IpHistory.updateCap 3 u3.1 4 0

/-- C1: for every Window Tracker and every sequence of update calls, after
each update the sample queue length is at most MAX_SAMPLES and the running
sum `total_sum` equals the sum of the samples currently in the queue. -/
theorem c1_tracker_invariant (t : ℕ) (l : List (ℕ × ℕ)) :
    ((IpHistory.new t).runUpdates l).samples.length ≤ MAX_SAMPLES ∧
    ((IpHistory.new t).runUpdates l).total_sum =
      ((IpHistory.new t).runUpdates l).samples.sum :=
  runUpdates_inv l (IpHistory.new t)
    (by simp [IpHistory.new, MAX_SAMPLES, HISTORY_WINDOW_SECS, TICK_RATE_MS])
    (by simp [IpHistory.new])

/-- C2: after every `update` call the post-update queue is nonempty, and the
returned value equals `total_sum / (queueLength * tickIntervalSeconds)`
computed on the post-update state (so the zero-window guard, which returns 0,
is only reachable before the first sample was pushed). -/
theorem c2_update_average_formula (h : IpHistory) (now bytes : ℕ) :
    0 < (h.update now bytes).1.samples.length ∧
    (h.update now bytes).2 =
      ((h.update now bytes).1.total_sum : ℚ) /
        (((h.update now bytes).1.samples.length : ℚ) *
          ((TICK_RATE_MS : ℚ) / 1000)) :=
  ⟨update_length_pos h now bytes,
   updateCap_avg_eq MAX_SAMPLES h now bytes
     (by norm_num [MAX_SAMPLES, HISTORY_WINDOW_SECS, TICK_RATE_MS])⟩

/-- C5 counterexample: feeding 300, 300, 300, 0 into a capacity-3 tracker
leaves running sum 600 (samples [300, 300, 0]) and returns 400, not the
claimed running sum 300 and average `300 / (3 * tickIntervalSeconds)` = 200. -/
theorem c5_counterexample :
    scenarioB.1.total_sum = 600 ∧ scenarioB.1.total_sum ≠ 300 ∧
    scenarioB.2 = 400 ∧
    scenarioB.2 ≠ 300 / (3 * ((TICK_RATE_MS : ℚ) / 1000)) := by
  have h2 : scenarioB.2 = windowAvg 3 600 := rfl
  refine ⟨rfl, by decide, ?_, ?_⟩
  · rw [h2]
    norm_num [windowAvg, TICK_RATE_MS]
  · rw [h2]
    norm_num [windowAvg, TICK_RATE_MS]

/-- C5 amended: with capacity 3 and inputs 300, 300, 300, 0, the fourth
update evicts the oldest 300 leaving samples [300, 300, 0], so the running
sum is 600 and the returned average is `600 / (3 * tickIntervalSeconds)`. -/
theorem c5_amended_scenario_b :
    scenarioB.1.samples = [300, 300, 0] ∧ scenarioB.1.total_sum = 600 ∧
    scenarioB.2 = 600 / (3 * ((TICK_RATE_MS : ℚ) / 1000)) := by
  have h2 : scenarioB.2 = windowAvg 3 600 := rfl
  refine ⟨rfl, rfl, ?_⟩
  rw [h2]
  norm_num [windowAvg, TICK_RATE_MS]

/-- C10: for every input sequence, the averages returned by the older
revision's `IpMetrics::update` equal those returned by the newer revision's
`IpHistory::update`; the revisions differ only in peak bookkeeping. -/
theorem c10_revisions_same_averages (t : ℕ) (l : List (ℕ × ℕ)) :
    IpMetrics.runAvgs IpMetrics.new l = IpHistory.runAvgs (IpHistory.new t) l :=
  runAvgs_eq l IpMetrics.new (IpHistory.new t) rfl rfl

/-- C8: after every tick the published snapshot is sorted descending by
average rate: every adjacent pair satisfies `average[i] >= average[i+1]`. -/
theorem c8_snapshot_sorted (app : App) (stats : SharedStats) (now : ℕ) :
    List.Chain' (fun a b : Ipv4Addr × ℚ × ℚ × ℕ => b.2.1 ≤ a.2.1)
      (App.on_tick app stats now).1.top_talkers := by
  rw [on_tick_top_talkers]
  have htrans : ∀ a b c : Ipv4Addr × ℚ × ℚ × ℕ,
      snapLe a b → snapLe b c → snapLe a c := by
    intro a b c hab hbc
    simp only [snapLe, decide_eq_true_eq] at *
    exact le_trans hbc hab
  have htotal : ∀ a b : Ipv4Addr × ℚ × ℚ × ℕ, snapLe a b || snapLe b a := by
    intro a b
    simp only [snapLe]
    rcases le_total b.2.1 a.2.1 with h | h <;> simp [h]
  have hs := List.sorted_mergeSort htrans htotal
    (((alKeys app.ip_histories ++
        (alKeys stats.traffic_delta).filter
          (fun k => (alFind app.ip_histories k).isNone)).foldl
      (visitIp stats.traffic_delta now) (app.ip_histories, [])).2)
  exact List.Pairwise.chain'
    (hs.imp (fun hab => by simpa [snapLe, decide_eq_true_eq] using hab))

/-- C9: the average compared during the snapshot sort is never a NaN: every
value returned by `update` is the result of an f64 division with a strictly
positive divisor (modelled by `f64Div` returning `some`) and is non-negative,
and consequently every average stored in the published snapshot is a genuine
non-negative rational, so the sort comparison is total on all reachable
snapshots and `partial_cmp(..).unwrap()` cannot panic. -/
theorem c9_no_nan_in_sort :
    (∀ (h : IpHistory) (now bytes : ℕ),
      f64Div ((h.update now bytes).1.total_sum : ℚ)
          (((h.update now bytes).1.samples.length : ℚ) *
            ((TICK_RATE_MS : ℚ) / 1000)) =
        some ((h.update now bytes).2) ∧
      0 ≤ (h.update now bytes).2) ∧
    (∀ (app : App) (stats : SharedStats) (now : ℕ)
      (i : Fin (App.on_tick app stats now).1.top_talkers.length),
      (0 : ℚ) ≤ ((App.on_tick app stats now).1.top_talkers.get i).2.1) := by
  constructor
  · intro h now bytes
    constructor
    · rw [show (h.update now bytes).2 =
          windowAvg (h.update now bytes).1.samples.length
            (h.update now bytes).1.total_sum from rfl]
      exact f64Div_windowAvg _ _ (update_length_pos h now bytes)
    · exact updateCap_avg_nonneg MAX_SAMPLES h now bytes
  · intro app stats now i
    have hx : (App.on_tick app stats now).1.top_talkers.get i ∈
        (App.on_tick app stats now).1.top_talkers := List.get_mem _ i.1 i.2
    generalize hgen : (App.on_tick app stats now).1.top_talkers.get i = x at hx ⊢
    rw [on_tick_top_talkers, List.mem_mergeSort] at hx
    exact foldl_visit_snap_nonneg stats.traffic_delta now _
      (app.ip_histories, []) (by intro e' he'; simp at he') x hx

/-- C6: per-tracker and global peak records are monotone: an update strictly
above the current peak overwrites both the rate and its timestamp with `now`;
otherwise (including ties) both are left unchanged; hence `peakRate` is
non-decreasing across any sequence of updates. -/
theorem c6_peak_monotone (h : IpHistory) (now bytes : ℕ)
    (l : List (ℕ × ℕ)) (app : App) (stats : SharedStats) (now' : ℕ) :
    (h.peak_rate ≤ (h.update now bytes).1.peak_rate ∧
     (h.peak_rate < (bytes : ℚ) * (1000 / (TICK_RATE_MS : ℚ)) →
       (h.update now bytes).1.peak_rate =
           (bytes : ℚ) * (1000 / (TICK_RATE_MS : ℚ)) ∧
       (h.update now bytes).1.peak_time = now) ∧
     (¬ h.peak_rate < (bytes : ℚ) * (1000 / (TICK_RATE_MS : ℚ)) →
       (h.update now bytes).1.peak_rate = h.peak_rate ∧
       (h.update now bytes).1.peak_time = h.peak_time)) ∧
    h.peak_rate ≤ (h.runUpdates l).peak_rate ∧
    ((app.peak_rx_record.1 ≤ (App.on_tick app stats now').1.peak_rx_record.1 ∧
      (app.peak_rx_record.1 <
          (stats.rx_delta : ℚ) * (1000 / (TICK_RATE_MS : ℚ)) →
        (App.on_tick app stats now').1.peak_rx_record =
          ((stats.rx_delta : ℚ) * (1000 / (TICK_RATE_MS : ℚ)), now')) ∧
      (¬ app.peak_rx_record.1 <
          (stats.rx_delta : ℚ) * (1000 / (TICK_RATE_MS : ℚ)) →
        (App.on_tick app stats now').1.peak_rx_record = app.peak_rx_record)) ∧
     (app.peak_tx_record.1 ≤ (App.on_tick app stats now').1.peak_tx_record.1 ∧
      (app.peak_tx_record.1 <
          (stats.tx_delta : ℚ) * (1000 / (TICK_RATE_MS : ℚ)) →
        (App.on_tick app stats now').1.peak_tx_record =
          ((stats.tx_delta : ℚ) * (1000 / (TICK_RATE_MS : ℚ)), now')) ∧
      (¬ app.peak_tx_record.1 <
          (stats.tx_delta : ℚ) * (1000 / (TICK_RATE_MS : ℚ)) →
        (App.on_tick app stats now').1.peak_tx_record =
          app.peak_tx_record))) := by
  refine ⟨⟨updateCap_peak_mono MAX_SAMPLES h now bytes,
      fun hlt => updateCap_peak_lt MAX_SAMPLES h now bytes hlt,
      fun hge => updateCap_peak_ge MAX_SAMPLES h now bytes hge⟩,
    runUpdates_peak_mono h l, ⟨?_, ?_, ?_⟩, ⟨?_, ?_, ?_⟩⟩
  · rw [on_tick_peak_rx]
    split
    · rename_i hlt
      exact le_of_lt hlt
    · exact le_rfl
  · intro hlt
    rw [on_tick_peak_rx, if_pos hlt]
  · intro hge
    rw [on_tick_peak_rx, if_neg hge]
  · rw [on_tick_peak_tx]
    split
    · rename_i hlt
      exact le_of_lt hlt
    · exact le_rfl
  · intro hlt
    rw [on_tick_peak_tx, if_pos hlt]
  · intro hge
    rw [on_tick_peak_tx, if_neg hge]

/-- A tracker state with a recorded peak of 2000 B/s, used to witness both
branches of the peak-update rule. -/
def peakHist : IpHistory :=
  { samples := [], total_sum := 0, peak_rate := 2000, peak_time := 7 }

/-- Witness for C6: with current peak 2000 recorded at time 7, an update of
1500 bytes (instantaneous rate 3000) moves the record to (3000, now = 9),
while an update of 1000 bytes (instantaneous rate 2000, a tie) leaves the
record at (2000, 7). -/
theorem c6_peak_monotone_witness :
    (peakHist.peak_rate < ((1500 : ℕ) : ℚ) * (1000 / (TICK_RATE_MS : ℚ)) ∧
      (peakHist.update 9 1500).1.peak_rate =
          ((1500 : ℕ) : ℚ) * (1000 / (TICK_RATE_MS : ℚ)) ∧
      (peakHist.update 9 1500).1.peak_time = 9) ∧
    (¬ peakHist.peak_rate < ((1000 : ℕ) : ℚ) * (1000 / (TICK_RATE_MS : ℚ)) ∧
      (peakHist.update 9 1000).1.peak_rate = peakHist.peak_rate ∧
      (peakHist.update 9 1000).1.peak_time = peakHist.peak_time) := by
  have hlt : peakHist.peak_rate < ((1500 : ℕ) : ℚ) * (1000 / (TICK_RATE_MS : ℚ)) := by
    norm_num [peakHist, TICK_RATE_MS]
  have hge : ¬ peakHist.peak_rate <
      ((1000 : ℕ) : ℚ) * (1000 / (TICK_RATE_MS : ℚ)) := by
    norm_num [peakHist, TICK_RATE_MS]
  exact ⟨⟨hlt, (c6_peak_monotone peakHist 9 1500 [] (App.new 0) emptyStats 0).1.2.1 hlt⟩,
    ⟨hge, (c6_peak_monotone peakHist 9 1000 [] (App.new 0) emptyStats 0).1.2.2 hge⟩⟩

/-- C7: for every captured packet, `record` adds the length to `tx_delta` if
the source is the local address and to `rx_delta` otherwise, and for each of
source and destination independently adds the length to that endpoint's
per-tick delta exactly when `should_track_ip` holds (the operator filter if
configured, the RFC1918 default policy otherwise); in particular, with local
address 192.168.1.5, a 1500-byte packet from 192.168.1.5 to 8.8.8.8 gives
`tx_delta += 1500`, delta[192.168.1.5] += 1500, and leaves 8.8.8.8 untracked. -/
theorem c7_record_classification :
    (∀ (s : SharedStats) (local_ip : Ipv4Addr)
        (filter_cidr : Option Ipv4Network) (src dst : Ipv4Addr) (len : ℕ),
      ((src = local_ip →
          (s.record local_ip filter_cidr src dst len).tx_delta =
              s.tx_delta + len ∧
          (s.record local_ip filter_cidr src dst len).rx_delta = s.rx_delta) ∧
       (¬ src = local_ip →
          (s.record local_ip filter_cidr src dst len).rx_delta =
              s.rx_delta + len ∧
          (s.record local_ip filter_cidr src dst len).tx_delta = s.tx_delta)) ∧
      (∀ a : Ipv4Addr,
        (alFind (s.record local_ip filter_cidr src dst len).traffic_delta
            a).getD 0 =
          (alFind s.traffic_delta a).getD 0 +
            (if should_track_ip src filter_cidr = true ∧ a = src then len
             else 0) +
            (if should_track_ip dst filter_cidr = true ∧ a = dst then len
             else 0))) ∧
    ((emptyStats.record ⟨192, 168, 1, 5⟩ none ⟨192, 168, 1, 5⟩ ⟨8, 8, 8, 8⟩
        1500).tx_delta = 1500 ∧
     (emptyStats.record ⟨192, 168, 1, 5⟩ none ⟨192, 168, 1, 5⟩ ⟨8, 8, 8, 8⟩
        1500).rx_delta = 0 ∧
     alFind (emptyStats.record ⟨192, 168, 1, 5⟩ none ⟨192, 168, 1, 5⟩
        ⟨8, 8, 8, 8⟩ 1500).traffic_delta ⟨192, 168, 1, 5⟩ = some 1500 ∧
     should_track_ip ⟨8, 8, 8, 8⟩ none = false ∧
     alFind (emptyStats.record ⟨192, 168, 1, 5⟩ none ⟨192, 168, 1, 5⟩
        ⟨8, 8, 8, 8⟩ 1500).traffic_delta ⟨8, 8, 8, 8⟩ = none) :=
  ⟨fun s local_ip filter_cidr src dst len =>
    record_spec s local_ip filter_cidr src dst len,
   by decide, by decide, by decide, by decide, by decide⟩

/-- Witness for C7: the general classification statement applied at the
spec's Scenario C packet (local address 192.168.1.5, source 192.168.1.5,
destination 8.8.8.8, length 1500), discharging the `src = local_ip`
hypothesis. -/
theorem c7_record_classification_witness :
    ((⟨192, 168, 1, 5⟩ : Ipv4Addr) = ⟨192, 168, 1, 5⟩) ∧
    (emptyStats.record ⟨192, 168, 1, 5⟩ none ⟨192, 168, 1, 5⟩ ⟨8, 8, 8, 8⟩
        1500).tx_delta = emptyStats.tx_delta + 1500 ∧
    (emptyStats.record ⟨192, 168, 1, 5⟩ none ⟨192, 168, 1, 5⟩ ⟨8, 8, 8, 8⟩
        1500).rx_delta = emptyStats.rx_delta :=
  ⟨rfl,
   (c7_record_classification.1 emptyStats ⟨192, 168, 1, 5⟩ none
      ⟨192, 168, 1, 5⟩ ⟨8, 8, 8, 8⟩ 1500).1.1 rfl⟩

/-- C4: a tick removes an existing endpoint's tracker exactly when, after its
update, both the running sum and the peak rate are zero (the peak-rate
hypothesis `0 ≤ peak_rate` holds for every reachable tracker, whose peak
starts at 0 and never decreases); consequently every tracker remaining in the
map after a tick has positive running sum or positive peak. -/
theorem c4_eviction_iff_sum_and_peak_zero (app : App) (stats : SharedStats)
    (now : ℕ) (hnd1 : (alKeys app.ip_histories).Nodup)
    (hnd2 : (alKeys stats.traffic_delta).Nodup) :
    (∀ p ∈ (App.on_tick app stats now).1.ip_histories,
        0 < p.2.total_sum ∨ 0 < p.2.peak_rate) ∧
    (∀ ip h0, alFind app.ip_histories ip = some h0 → 0 ≤ h0.peak_rate →
      (alFind (App.on_tick app stats now).1.ip_histories ip = none ↔
        ((h0.update now
            ((alFind stats.traffic_delta ip).getD 0)).1.total_sum = 0 ∧
         (h0.update now
            ((alFind stats.traffic_delta ip).getD 0)).1.peak_rate = 0))) := by
  constructor
  · intro p hp
    rw [on_tick_ip_histories] at hp
    refine foldl_visit_kept stats.traffic_delta now _ (app.ip_histories, [])
      hnd1 ?_ p hp
    intro q hq
    exact Or.inr (List.mem_append_left _ (List.mem_map_of_mem Prod.fst hq))
  · intro ip h0 hfind hpk
    rw [on_tick_find_char app stats now ip h0 hnd1 hnd2 hfind]
    have hmono : (0 : ℚ) ≤ (h0.update now
        ((alFind stats.traffic_delta ip).getD 0)).1.peak_rate :=
      le_trans hpk (updateCap_peak_mono MAX_SAMPLES h0 now _)
    by_cases hc : 0 < (h0.update now
          ((alFind stats.traffic_delta ip).getD 0)).1.total_sum ∨
        0 < (h0.update now
          ((alFind stats.traffic_delta ip).getD 0)).1.peak_rate
    · rw [if_pos hc]
      constructor
      · intro h
        exact absurd h (by simp)
      · rintro ⟨h1, h2⟩
        rcases hc with h | h
        · omega
        · rw [h2] at h
          exact absurd h (lt_irrefl 0)
    · rw [if_neg hc]
      push_neg at hc
      exact ⟨fun _ => ⟨by omega, le_antisymm hc.2 hmono⟩, fun _ => rfl⟩

/-- Witness for C4: a tracker that is fresh (running sum 0, peak 0) before a
tick with no traffic is removed in that tick; the characterization applies
with all hypotheses discharged at this concrete state. -/
theorem c4_eviction_iff_sum_and_peak_zero_witness :
    ((alKeys freshApp.ip_histories).Nodup ∧
     (alKeys emptyStats.traffic_delta).Nodup ∧
     alFind freshApp.ip_histories ipW = some (IpHistory.new 0) ∧
     (0 : ℚ) ≤ (IpHistory.new 0).peak_rate) ∧
    (alFind (App.on_tick freshApp emptyStats 7).1.ip_histories ipW = none ↔
      (((IpHistory.new 0).update 7
          ((alFind emptyStats.traffic_delta ipW).getD 0)).1.total_sum = 0 ∧
       ((IpHistory.new 0).update 7
          ((alFind emptyStats.traffic_delta ipW).getD 0)).1.peak_rate = 0)) :=
  ⟨⟨by decide, by decide, rfl, le_rfl⟩,
   (c4_eviction_iff_sum_and_peak_zero freshApp emptyStats 7 (by decide)
      (by decide)).2 ipW (IpHistory.new 0) rfl le_rfl⟩

set_option maxRecDepth 4096 in
/-- C3 counterexample: an endpoint whose tracker has running sum 0 after the
tick's update (a full window of zero samples) but a positive recorded peak
(500) is NOT discarded by the aggregator: it is still in the tracked-endpoint
map after `on_tick`, refuting "if runningSum == 0 then the tracker is
discarded in that same tick". -/
theorem c3_counterexample_sum_zero_not_discarded :
    (idleHist.update 5
        ((alFind emptyStats.traffic_delta ipW).getD 0)).1.total_sum = 0 ∧
    alFind (App.on_tick idleApp emptyStats 5).1.ip_histories ipW ≠ none := by
  have hbytes : (alFind emptyStats.traffic_delta ipW).getD 0 = 0 := rfl
  have hpeak : (idleHist.update 5 0).1.peak_rate = idleHist.peak_rate := by
    simp only [IpHistory.update]
    exact (updateCap_peak_ge MAX_SAMPLES idleHist 5 0
      (by norm_num [idleHist, TICK_RATE_MS])).1
  constructor
  · rw [hbytes]
    rfl
  · rw [on_tick_find_char idleApp emptyStats 5 ipW idleHist (by decide)
      (by decide) rfl]
    rw [if_pos (Or.inr (by rw [hbytes, hpeak]; norm_num [idleHist]))]
    simp

/-- C3 amended: after a tick's update, a tracker whose running sum is 0 is
discarded in that same tick only if its peak rate is also 0; when both are
zero the aggregator does remove the endpoint from the map in that tick. -/
theorem c3_amended_eviction_needs_peak_zero (app : App) (stats : SharedStats)
    (now : ℕ) (ip : Ipv4Addr) (h0 : IpHistory)
    (hnd1 : (alKeys app.ip_histories).Nodup)
    (hnd2 : (alKeys stats.traffic_delta).Nodup)
    (hfind : alFind app.ip_histories ip = some h0)
    (hsum : (h0.update now
        ((alFind stats.traffic_delta ip).getD 0)).1.total_sum = 0)
    (hpeak : (h0.update now
        ((alFind stats.traffic_delta ip).getD 0)).1.peak_rate = 0) :
    alFind (App.on_tick app stats now).1.ip_histories ip = none := by
  rw [on_tick_find_char app stats now ip h0 hnd1 hnd2 hfind]
  rw [if_neg]
  rintro (h | h)
  · omega
  · rw [hpeak] at h
    exact absurd h (lt_irrefl 0)

/-- Witness for the amended C3: a fresh tracker seeing another zero-traffic
tick has running sum 0 and peak 0 after its update, and is indeed removed
from the map in that same tick. -/
theorem c3_amended_eviction_needs_peak_zero_witness :
    ((alKeys freshApp.ip_histories).Nodup ∧
     (alKeys emptyStats.traffic_delta).Nodup ∧
     alFind freshApp.ip_histories ipW = some (IpHistory.new 0) ∧
     ((IpHistory.new 0).update 7 0).1.total_sum = 0 ∧
     ((IpHistory.new 0).update 7 0).1.peak_rate = 0) ∧
    alFind (App.on_tick freshApp emptyStats 7).1.ip_histories ipW = none := by
  have hpeak : ((IpHistory.new 0).update 7 0).1.peak_rate = 0 := by
    simp only [IpHistory.update]
    have h := (updateCap_peak_ge MAX_SAMPLES (IpHistory.new 0) 7 0
      (by norm_num [IpHistory.new, TICK_RATE_MS])).1
    rw [h]
    rfl
  refine ⟨⟨by decide, by decide, rfl, rfl, hpeak⟩, ?_⟩
  exact c3_amended_eviction_needs_peak_zero freshApp emptyStats 7 ipW
    (IpHistory.new 0) (by decide) (by decide) rfl rfl hpeak
